import Mathlib

/-!
Shallow embedding of two modules of the rust-analyzer fork under verification:

* `crates/assists/src/handlers/inline_function.rs` — the call-site inlining
  assist (`inline_function`, `function_parameter_patterns`);
* `crates/ide_db/src/imports_locator.rs` — the multi-source import search
  (`find_exact_imports`, `find_similar_imports`, `find_imports`,
  `get_name_definition`).

External collaborators (the semantic database `hir`, the syntax-tree provider,
the symbol index and the import map) are embedded as abstract function-valued
parameters packaged in `AssistContext` / `Semantics` records, mirroring the
query interfaces the source consumes.  Query-builder types and the indentation
edit of the `syntax` crate, which live in this repository but outside the two
files, are modelled from the spec where noted.
-/

namespace RA

/-- A half-open source text range `[start, endEx)`, in character offsets. -/
structure TextRange where
  start : Nat
  endEx : Nat
deriving DecidableEq, Repr

namespace hir

/-- Semantic identity of a function definition in the semantic model. -/
structure Function where
  id : Nat
deriving DecidableEq, Repr

/-- Semantic identity of a constant definition. -/
structure Const where
  id : Nat
deriving DecidableEq, Repr

/-- Semantic identity of a type-alias definition. -/
structure TypeAlias where
  id : Nat
deriving DecidableEq, Repr

/-- Semantic identity of a macro definition. -/
structure MacroDef where
  id : Nat
deriving DecidableEq, Repr

/-- A module in the semantic model (visibility is checked against one). -/
structure Module where
  id : Nat
deriving DecidableEq, Repr

/-- A crate (compilation unit). -/
structure Crate where
  id : Nat
deriving DecidableEq, Repr

/-- An associated item (an item owned by an impl block or trait). -/
structure AssocItem where
  id : Nat
deriving DecidableEq, Repr

/-- Embedding of `hir::ModuleDef`: the closed variant of module-level definitions. -/
inductive ModuleDef where
  | module (m : Module)
  | function (f : Function)
  | adt (id : Nat)
  | variant (id : Nat)
  | const (c : Const)
  | static_ (id : Nat)
  | trait_ (id : Nat)
  | typeAlias (t : TypeAlias)
  | builtinType (id : Nat)
deriving DecidableEq, Repr

/-- Embedding of `hir::PathResolution`: what a path can resolve to. -/
inductive PathResolution where
  | def_ (d : ModuleDef)
  | assocItem (a : AssocItem)
  | local_ (id : Nat)
  | typeParam (id : Nat)
  | selfType (id : Nat)
  | macroDef (m : MacroDef)
deriving DecidableEq, Repr

end hir

namespace ast

/-- An irrefutable binding pattern, kept as its source text. -/
structure Pat where
  text : String
deriving DecidableEq, Repr

/-- An expression, kept as its source text (its internal structure is never
    inspected by the code under verification). -/
structure Expr where
  text : String
deriving DecidableEq, Repr

/-- A statement of a block: a `let` binding or an expression statement. -/
inductive Stmt where
  | letStmt (pat : Pat) (initializer : Option Expr)
  | exprStmt (e : Expr)
deriving DecidableEq, Repr

/-- Embedding of `ast::BlockExpr`: statements, an optional trailing expression, and the
    indentation level its rendered text carries (in 4-space units).
    The indentation field models the `AstNodeEdit` trait of the repository's
    `syntax` crate (not under the two source files): `reset_indent` sets it to
    zero and `indent` adds a level. -/
structure BlockExpr where
  statements : List Stmt
  tailExpr : Option Expr
  indentLevel : Nat
deriving DecidableEq, Repr

/-- Modelled from the spec: `AstNodeEdit::reset_indent` re-renders the node at
    indentation zero. -/
def BlockExpr.reset_indent (b : BlockExpr) : BlockExpr :=
  { b with indentLevel := 0 }

/-- Modelled from the spec: `AstNodeEdit::indent` adds `level` to the node's
    indentation. -/
def BlockExpr.indent (b : BlockExpr) (level : Nat) : BlockExpr :=
  { b with indentLevel := b.indentLevel + level }

/-- A function parameter: `param.pat()` is optional in the syntax tree. -/
structure Param where
  pat : Option Pat
deriving DecidableEq, Repr

/-- Embedding of `ast::ParamList`. -/
structure ParamList where
  params : List Param
deriving DecidableEq, Repr

/-- Embedding of `ast::Fn`: the syntax of a function declaration; `param_list()` and
    `body()` are optional in the tree. -/
structure Fn where
  param_list : Option ParamList
  body : Option BlockExpr
deriving DecidableEq, Repr

/-- Embedding of `ast::ArgList`. -/
structure ArgList where
  args : List Expr
deriving DecidableEq, Repr

/-- A path (possibly qualified name occurrence), kept as text. -/
structure Path where
  text : String
deriving DecidableEq, Repr

/-- Embedding of `ast::PathExpr`: `path()` is optional; `range` is its own text range. -/
structure PathExpr where
  path : Option Path
  range : TextRange
deriving DecidableEq, Repr

/-- Embedding of `ast::CallExpr`: argument list (optional in the tree), the whole call's
    text range, and the call site's indentation level. -/
structure CallExpr where
  arg_list : Option ArgList
  range : TextRange
  indentLevel : Nat
deriving DecidableEq, Repr

end ast

namespace make

/-- Embedding of `make::let_stmt(pattern, initializer).into()`. -/
def let_stmt (pat : ast.Pat) (initializer : Option ast.Expr) : ast.Stmt :=
  ast.Stmt.letStmt pat initializer

/-- Embedding of `make::block_expr(stmts, tail)`: a freshly constructed block (rendered at
    template indentation zero). -/
def block_expr (stmts : List ast.Stmt) (tail : Option ast.Expr) : ast.BlockExpr :=
  { statements := stmts, tailExpr := tail, indentLevel := 0 }

end make

/-- Number of spaces of one indentation level times `n`. -/
def indentSpaces (n : Nat) : String :=
  String.mk (List.replicate (4 * n) ' ')

/-- Render a statement back to text. -/
def renderStmt : ast.Stmt → String
  | ast.Stmt.letStmt p none => "let " ++ p.text ++ ";"
  | ast.Stmt.letStmt p (some e) => "let " ++ p.text ++ " = " ++ e.text ++ ";"
  | ast.Stmt.exprStmt e => e.text ++ ";"

/-- Render a block expression back to text at its indentation level. -/
def ast.BlockExpr.render (b : ast.BlockExpr) : String :=
  "\x7b\n"
    ++ String.join (b.statements.map
        (fun s => indentSpaces (b.indentLevel + 1) ++ renderStmt s ++ "\n"))
    ++ (match b.tailExpr with
        | some e => indentSpaces (b.indentLevel + 1) ++ e.text ++ "\n"
        | none => "")
    ++ indentSpaces b.indentLevel ++ "\x7d"

/-- A single text edit: replace the characters in `[start, endEx)` with
    `newText`. -/
structure SourceEdit where
  start : Nat
  endEx : Nat
  newText : List Char
deriving DecidableEq, Repr

/-- Apply a `SourceEdit` to a source text. -/
def applyEdit (e : SourceEdit) (text : List Char) : List Char :=
  text.take e.start ++ e.newText ++ text.drop e.endEx

/-- The assist produced on success: id, label, highlight target, the
    replacement block, and the emitted text edit. -/
structure Assist where
  id : String
  label : String
  target : TextRange
  replacement : ast.BlockExpr
  edit : SourceEdit
deriving DecidableEq, Repr

/-- The assist context: the syntax tree around the cursor and the semantic
    model facade, embedded as the query results the source code consumes
    (`find_node_at_offset`, parent-to-`CallExpr` cast, `sema.resolve_path`,
    `sema.scope(..).module()`, `Function::is_visible_from`,
    `Function::source(..).value`). -/
structure AssistContext where
  find_node_at_offset : Option ast.PathExpr
  parentCallExpr : ast.PathExpr → Option ast.CallExpr
  resolve_path : ast.Path → Option hir.PathResolution
  scopeModule : ast.CallExpr → Option hir.Module
  is_visible_from : hir.Function → hir.Module → Bool
  source : hir.Function → ast.Fn

/-- Embedding of `function_parameter_patterns`: collect each parameter's pattern, failing
    if the parameter list is missing or any parameter lacks a pattern. -/
def function_parameter_patterns (value : ast.Fn) : Option (List ast.Pat) := do
  let pl ← value.param_list
  pl.params.mapM (fun param => param.pat)

/-- Embedding of `inline_function`: the inline-function assist, translated clause by clause
    from `crates/assists/src/handlers/inline_function.rs`. -/
def inline_function (ctx : AssistContext) : Option Assist := do
  let path_expr ← ctx.find_node_at_offset
  let call ← ctx.parentCallExpr path_expr
  let path ← path_expr.path
  let res ← ctx.resolve_path path
  let function ← match res with
    | hir.PathResolution.def_ (hir.ModuleDef.function f) => some f
    | _ => none
  let current_module ← ctx.scopeModule call
  if ctx.is_visible_from function current_module = false then
    none
  else
    let function_source := ctx.source function
    do
    let body ← function_source.body
    let target := call.range
    let argList ← call.arg_list
    let arguments := argList.args
    let parameters ← function_parameter_patterns function_source
    if arguments.length ≠ parameters.length then
      none
    else
      let new_bindings := parameters.zip arguments
      let statements :=
        new_bindings.map (fun pv => make.let_stmt pv.1 (some pv.2))
          ++ body.statements
      let original_indentation := call.indentLevel
      let replacement :=
        ((make.block_expr statements body.tailExpr).reset_indent).indent
          original_indentation
      some
        { id := "inline_function"
          label := "Inline `" ++ path.text ++ "`"
          target := target
          replacement := replacement
          edit :=
            { start := call.range.start
              endEx := call.range.endEx
              newText := replacement.render.data } }

/-- Embedding of `Either` of the `either` crate, used as `Either<ModuleDef, MacroDef>`. -/
inductive Either (α β : Type) where
  | left (a : α)
  | right (b : β)
deriving DecidableEq, Repr

/-- Embedding of `SyntaxKind`: the `NAME` kind is the one the locator code inspects. -/
inductive SyntaxKind where
  | NAME
  | other (k : Nat)
deriving DecidableEq, Repr

/-- An immutable syntax node: a kind and its children. -/
inductive SyntaxNode where
  | node (kind : SyntaxKind) (children : List SyntaxNode)

/-- The kind of a syntax node. -/
def SyntaxNode.kind : SyntaxNode → SyntaxKind
  | SyntaxNode.node k _ => k

/-- The children of a syntax node. -/
def SyntaxNode.children : SyntaxNode → List SyntaxNode
  | SyntaxNode.node _ cs => cs

instance : Inhabited SyntaxNode := ⟨SyntaxNode.node (SyntaxKind.other 0) []⟩

/-- A `SyntaxNodePtr`: a stable pointer into a tree, embedded as a path of
    child indices from the root. -/
def SyntaxNodePtr := List Nat

/-- Embedding of `SyntaxNodePtr::to_node(root)`: descend from the root along the path. -/
def SyntaxNodePtr.to_node : SyntaxNodePtr → SyntaxNode → SyntaxNode
  | [], n => n
  | i :: rest, n => SyntaxNodePtr.to_node rest (n.children.getD i default)

/-- Embedding of `ast::Name`: a syntax node of kind `NAME`. -/
structure AstName where
  node : SyntaxNode

/-- Embedding of `ast::Name::cast`: succeeds exactly on nodes of kind `NAME`. -/
def AstName.cast (n : SyntaxNode) : Option AstName :=
  if n.kind = SyntaxKind.NAME then some ⟨n⟩ else none

/-- Embedding of `NameClass` (from `ide_db::defs`): an opaque classification token whose
    `defined` projection the semantic facade supplies. -/
structure NameClass where
  id : Nat
deriving DecidableEq, Repr

/-- Embedding of `Definition` (from `ide_db::defs`): what a classified name defines. -/
inductive Definition where
  | macroDef (m : hir.MacroDef)
  | field (id : Nat)
  | moduleDef (d : hir.ModuleDef)
  | selfType (id : Nat)
  | local_ (id : Nat)
  | typeParam (id : Nat)
deriving DecidableEq, Repr

/-- Embedding of `FileSymbol`: a raw local-index hit, identifying a syntax location
    (file plus node pointer), not yet a semantic identity. -/
structure FileSymbol where
  file_id : Nat
  ptr : SyntaxNodePtr

namespace symbol_index

/-- Embedding of `symbol_index::Query` (repository code outside the two source files).
    Modelled from the spec: search string, lowercased copy, flags, `exact`
    match mode and an optional result limit (unset on `new`). -/
structure Query where
  query : String
  lowercased : String
  only_types : Bool
  libs : Bool
  isExact : Bool
  limitN : Option Nat
deriving DecidableEq, Repr

/-- Embedding of `symbol_index::Query::new`. -/
def Query.new (query : String) : Query :=
  { query := query
    lowercased := query.toLower
    only_types := false
    libs := false
    isExact := false
    limitN := none }

/-- Embedding of `Query::exact`: request exact (full, case-sensitive) name matching. -/
def Query.exact (q : Query) : Query :=
  { q with isExact := true }

/-- Embedding of `Query::limit`. -/
def Query.limit (q : Query) (n : Nat) : Query :=
  { q with limitN := some n }

/-- Modelled from the spec: whether a symbol name matches an exact-mode local
    query — full string equality, case-sensitive. -/
def Query.exactMatches (q : Query) (name : String) : Bool :=
  q.isExact && name = q.query

end symbol_index

namespace ImportMap

/-- Embedding of `import_map::SearchMode` (repository code outside the two source files). -/
inductive SearchMode where
  | Contains
  | Equals
  | Fuzzy
deriving DecidableEq, Repr

/-- Embedding of `import_map::Query`. Modelled from the spec: search string, name-only
    flag, search mode, case sensitivity, optional result limit. -/
structure Query where
  query : String
  lowercased : String
  nameOnly : Bool
  searchMode : SearchMode
  caseSensitive : Bool
  limitN : Option Nat
deriving DecidableEq, Repr

/-- Embedding of `import_map::Query::new`: contains-mode, case-insensitive, unlimited. -/
def Query.new (query : String) : Query :=
  { query := query
    lowercased := query.toLower
    nameOnly := false
    searchMode := SearchMode.Contains
    caseSensitive := false
    limitN := none }

/-- Embedding of `Query::limit`. -/
def Query.limit (q : Query) (n : Nat) : Query :=
  { q with limitN := some n }

/-- Embedding of `Query::name_only`: match only the item's name, not its full path. -/
def Query.name_only (q : Query) : Query :=
  { q with nameOnly := true }

/-- Embedding of `Query::search_mode`. -/
def Query.search_mode (q : Query) (m : SearchMode) : Query :=
  { q with searchMode := m }

/-- Embedding of `Query::case_sensitive`. -/
def Query.case_sensitive (q : Query) : Query :=
  { q with caseSensitive := true }

end ImportMap

/-- The semantic facade consumed by the imports locator: parsing, name
    classification, `NameClass::defined`, `as_assoc_item` for the three item
    kinds, the dependency import-map backend and the local symbol-index
    backend. -/
structure Semantics where
  parse : Nat → SyntaxNode
  classify : AstName → Option NameClass
  nameClassDefined : NameClass → Option Definition
  as_assoc_item_fn : hir.Function → Option hir.AssocItem
  as_assoc_item_const : hir.Const → Option hir.AssocItem
  as_assoc_item_type_alias : hir.TypeAlias → Option hir.AssocItem
  query_external_importables :
    hir.Crate → ImportMap.Query → List (Either hir.ModuleDef hir.MacroDef)
  crate_symbols : hir.Crate → symbol_index.Query → List FileSymbol

/-- Embedding of `get_name_definition`: re-resolve a raw index hit — find the `NAME` node
    at (or under) the pointed-to node, cast it, classify it, and take the
    classification's defined item; any step may fail. -/
def get_name_definition (sema : Semantics) (import_candidate : FileSymbol) :
    Option Definition := do
  let candidate_node :=
    SyntaxNodePtr.to_node import_candidate.ptr (sema.parse import_candidate.file_id)
  let candidate_name_node ←
    if candidate_node.kind ≠ SyntaxKind.NAME then
      candidate_node.children.find? (fun it => it.kind = SyntaxKind.NAME)
    else
      some candidate_node
  let name ← AstName.cast candidate_name_node
  let nc ← sema.classify name
  sema.nameClassDefined nc

/-- Insertion into an `FxHashSet`, embedded as a duplicate-free list: a value
    already present is not added again. -/
def hsInsert {α : Type} [DecidableEq α] (s : List α) (a : α) : List α :=
  if a ∈ s then s else s ++ [a]

/-- Embedding of `FxHashSet::extend`: fold `hsInsert` over the new elements. -/
def hsExtend {α : Type} [DecidableEq α] (s : List α) (l : List α) : List α :=
  l.foldl hsInsert s

/-- Embedding of `collect::<FxHashSet<_>>()`. -/
def hashSetOfList {α : Type} [DecidableEq α] (l : List α) : List α :=
  hsExtend [] l

/-- The conversion of a re-resolved local hit into a search candidate:
    module-level definitions and macros survive, everything else is dropped. -/
def definitionToCandidate : Definition → Option (Either hir.ModuleDef hir.MacroDef)
  | Definition.moduleDef module_def => some (Either.left module_def)
  | Definition.macroDef macro_def => some (Either.right macro_def)
  | _ => none

/-- The local-backend contribution to `find_imports`: each raw hit is
    re-resolved via `get_name_definition`, then narrowed to module-level
    definitions and macros; failures are dropped by `filterMap`. -/
def localCandidates (sema : Semantics) (local_results : List FileSymbol) :
    List (Either hir.ModuleDef hir.MacroDef) :=
  (local_results.filterMap (get_name_definition sema)).filterMap
    definitionToCandidate

/-- Embedding of `find_imports`: query the dependency import map first, collect into a
    deduplicating set, then fold in the re-resolved local-index hits. -/
def find_imports (sema : Semantics) (krate : hir.Crate)
    (local_query : symbol_index.Query) (external_query : ImportMap.Query) :
    List (Either hir.ModuleDef hir.MacroDef) :=
  let candidates := hashSetOfList (sema.query_external_importables krate external_query)
  let local_results := sema.crate_symbols krate local_query
  hsExtend candidates (localCandidates sema local_results)

/-- The local query built by `find_exact_imports`: exact match, limit 40. -/
def find_exact_local_query (name_to_import : String) : symbol_index.Query :=
  ((symbol_index.Query.new name_to_import).exact).limit 40

/-- The dependency query built by `find_exact_imports`: limit 40, name-only,
    equals mode, case-sensitive. -/
def find_exact_external_query (name_to_import : String) : ImportMap.Query :=
  ((((ImportMap.Query.new name_to_import).limit 40).name_only).search_mode
    ImportMap.SearchMode.Equals).case_sensitive

/-- Embedding of `find_exact_imports`. -/
def find_exact_imports (sema : Semantics) (krate : hir.Crate)
    (name_to_import : String) : List (Either hir.ModuleDef hir.MacroDef) :=
  find_imports sema krate (find_exact_local_query name_to_import)
    (find_exact_external_query name_to_import)

/-- The associated-item filter applied by `find_similar_imports` when
    `ignore_assoc_items` is set. -/
def assocItemFilter (sema : Semantics)
    (import_candidate : Either hir.ModuleDef hir.MacroDef) : Bool :=
  match import_candidate with
  | Either.left (hir.ModuleDef.function function) =>
    (sema.as_assoc_item_fn function).isNone
  | Either.left (hir.ModuleDef.const const_) =>
    (sema.as_assoc_item_const const_).isNone
  | Either.left (hir.ModuleDef.typeAlias type_alias) =>
    (sema.as_assoc_item_type_alias type_alias).isNone
  | _ => true

/-- The local query built by `find_similar_imports`. -/
def find_similar_local_query (limit : Option Nat) (fuzzy_search_string : String) :
    symbol_index.Query :=
  let local_query := symbol_index.Query.new fuzzy_search_string
  match limit with
  | some l => local_query.limit l
  | none => local_query

/-- The dependency query built by `find_similar_imports`. -/
def find_similar_external_query (limit : Option Nat) (fuzzy_search_string : String)
    (name_only : Bool) : ImportMap.Query :=
  let external_query :=
    (ImportMap.Query.new fuzzy_search_string).search_mode ImportMap.SearchMode.Fuzzy
  let external_query := if name_only then external_query.name_only else external_query
  match limit with
  | some l => external_query.limit l
  | none => external_query

/-- Embedding of `find_similar_imports`: run `find_imports` on mirrored fuzzy queries and,
    when `ignore_assoc_items` is set, drop associated functions, constants
    and type aliases. -/
def find_similar_imports (sema : Semantics) (krate : hir.Crate)
    (limit : Option Nat) (fuzzy_search_string : String)
    (ignore_assoc_items : Bool) (name_only : Bool) :
    List (Either hir.ModuleDef hir.MacroDef) :=
  (find_imports sema krate (find_similar_local_query limit fuzzy_search_string)
      (find_similar_external_query limit fuzzy_search_string name_only)).filter
    (fun import_candidate =>
      if ignore_assoc_items then assocItemFilter sema import_candidate
      else true)

/-! ### Concrete instances used to witness the theorems -/

/-- A two-argument call `foo(1, 2)` spanning offsets 21–30, indented two
    levels. -/
def callW : ast.CallExpr :=
  { arg_list := some { args := [{ text := "1" }, { text := "2" }] }
    range := { start := 21, endEx := 30 }
    indentLevel := 2 }

/-- The same call with a single argument `foo(1)` (arity mismatch). -/
def callW1 : ast.CallExpr :=
  { arg_list := some { args := [{ text := "1" }] }
    range := { start := 21, endEx := 27 }
    indentLevel := 2 }

/-- The body `{ let x = a + b; x }` of the example function. -/
def bodyW : ast.BlockExpr :=
  { statements := [ast.Stmt.letStmt { text := "x" } (some { text := "a + b" })]
    tailExpr := some { text := "x" }
    indentLevel := 1 }

/-- The declaration `fn foo(a, b) { let x = a + b; x }`. -/
def fnW : ast.Fn :=
  { param_list := some { params := [{ pat := some { text := "a" } },
                                    { pat := some { text := "b" } }] }
    body := some bodyW }

/-- The callee path expression `foo`, a strict sub-range of the call. -/
def pathExprW : ast.PathExpr :=
  { path := some { text := "foo" }, range := { start := 21, endEx := 24 } }

/-- A context where every step of the inline assist succeeds. -/
def ctxW : AssistContext :=
  { find_node_at_offset := some pathExprW
    parentCallExpr := fun _ => some callW
    resolve_path := fun _ =>
      some (hir.PathResolution.def_ (hir.ModuleDef.function { id := 7 }))
    scopeModule := fun _ => some { id := 3 }
    is_visible_from := fun _ _ => true
    source := fun _ => fnW }

/-- Like `ctxW` but the call supplies one argument to a two-parameter
    function. -/
def ctxW1 : AssistContext :=
  { find_node_at_offset := some pathExprW
    parentCallExpr := fun _ => some callW1
    resolve_path := fun _ =>
      some (hir.PathResolution.def_ (hir.ModuleDef.function { id := 7 }))
    scopeModule := fun _ => some { id := 3 }
    is_visible_from := fun _ _ => true
    source := fun _ => fnW }

/-- Like `ctxW` but the function is not visible from the caller's module. -/
def ctxW3 : AssistContext :=
  { find_node_at_offset := some pathExprW
    parentCallExpr := fun _ => some callW
    resolve_path := fun _ =>
      some (hir.PathResolution.def_ (hir.ModuleDef.function { id := 7 }))
    scopeModule := fun _ => some { id := 3 }
    is_visible_from := fun _ _ => false
    source := fun _ => fnW }

/-- A method-style call: the path resolves to an associated item, not a
    function-kind definition. -/
def ctxW4 : AssistContext :=
  { find_node_at_offset := some pathExprW
    parentCallExpr := fun _ => some callW
    resolve_path := fun _ => some (hir.PathResolution.assocItem { id := 9 })
    scopeModule := fun _ => some { id := 3 }
    is_visible_from := fun _ _ => true
    source := fun _ => fnW }

/-- A 40-character source text the witness edits are applied to. -/
def textW : List Char := List.replicate 40 'q'

/-- A raw index hit whose pointed-to node has no `NAME` anywhere. -/
def symW : FileSymbol := { file_id := 0, ptr := [] }

/-- A semantic facade whose parse result defeats name re-resolution for
    `symW`, with one external importable. -/
def semaW : Semantics :=
  { parse := fun _ => SyntaxNode.node (SyntaxKind.other 5) []
    classify := fun _ => none
    nameClassDefined := fun _ => none
    as_assoc_item_fn := fun _ => none
    as_assoc_item_const := fun _ => none
    as_assoc_item_type_alias := fun _ => none
    query_external_importables := fun _ _ =>
      [Either.left (hir.ModuleDef.function { id := 1 })]
    crate_symbols := fun _ _ => [symW] }

/-! ### Helper lemmas -/

theorem mem_hsInsert {α : Type} [DecidableEq α] (s : List α) (a b : α) :
    b ∈ hsInsert s a ↔ b ∈ s ∨ b = a := by
  unfold hsInsert
  by_cases h : a ∈ s
  · simp only [if_pos h]
    constructor
    · exact Or.inl
    · rintro (hb | rfl)
      · exact hb
      · exact h
  · simp [if_neg h]

theorem nodup_hsInsert {α : Type} [DecidableEq α] (s : List α) (a : α)
    (h : s.Nodup) : (hsInsert s a).Nodup := by
  unfold hsInsert
  by_cases ha : a ∈ s
  · simpa [if_pos ha]
  · simp only [if_neg ha, List.nodup_append]
    exact ⟨h, by simpa using ha⟩

theorem mem_hsExtend {α : Type} [DecidableEq α] (l : List α) (s : List α) (b : α) :
    b ∈ hsExtend s l ↔ b ∈ s ∨ b ∈ l := by
  induction l generalizing s with
  | nil => simp [hsExtend]
  | cons x xs ih =>
    simp only [hsExtend, List.foldl_cons] at *
    rw [ih (hsInsert s x), mem_hsInsert]
    simp only [List.mem_cons]
    tauto

theorem nodup_hsExtend {α : Type} [DecidableEq α] (l : List α) (s : List α)
    (h : s.Nodup) : (hsExtend s l).Nodup := by
  induction l generalizing s with
  | nil => simpa [hsExtend]
  | cons x xs ih =>
    simp only [hsExtend, List.foldl_cons] at *
    exact ih (hsInsert s x) (nodup_hsInsert s x h)

theorem mem_hashSetOfList {α : Type} [DecidableEq α] (l : List α) (b : α) :
    b ∈ hashSetOfList l ↔ b ∈ l := by
  unfold hashSetOfList
  rw [mem_hsExtend]
  simp

theorem nodup_hashSetOfList {α : Type} [DecidableEq α] (l : List α) :
    (hashSetOfList l).Nodup :=
  nodup_hsExtend l [] List.nodup_nil

theorem applyEdit_take (e : SourceEdit) (text : List Char)
    (h : e.start ≤ text.length) :
    (applyEdit e text).take e.start = text.take e.start := by
  unfold applyEdit
  rw [List.append_assoc]
  have hlen : (text.take e.start).length = e.start := by
    simp [List.length_take, Nat.min_eq_left h]
  rw [List.take_append_eq_append_take, hlen]
  simp [List.take_take]

theorem applyEdit_drop (e : SourceEdit) (text : List Char)
    (h : e.start ≤ text.length) :
    (applyEdit e text).drop (e.start + e.newText.length) = text.drop e.endEx := by
  unfold applyEdit
  have hlen : (text.take e.start ++ e.newText).length = e.start + e.newText.length := by
    simp [List.length_take, Nat.min_eq_left h]
  rw [List.append_assoc, ← List.append_assoc, List.drop_append_eq_append_drop, hlen]
  simp

/-- Helper: an assist is only produced when the cursor sits on a path
    expression whose parent is a call and whose path resolves to a
    function-kind definition. -/
theorem inline_function_some_implies_chain (ctx : AssistContext) (a : Assist)
    (h : inline_function ctx = some a) :
    ∃ path_expr call path f,
      ctx.find_node_at_offset = some path_expr ∧
      ctx.parentCallExpr path_expr = some call ∧
      path_expr.path = some path ∧
      ctx.resolve_path path =
        some (hir.PathResolution.def_ (hir.ModuleDef.function f)) := by
  unfold inline_function at h
  cases hpe : ctx.find_node_at_offset with
  | none => simp [hpe] at h
  | some path_expr =>
  rw [hpe] at h
  simp only [Option.bind_eq_bind, Option.some_bind] at h
  cases hcall : ctx.parentCallExpr path_expr with
  | none => simp [hcall] at h
  | some call =>
  rw [hcall] at h
  simp only [Option.bind_eq_bind, Option.some_bind] at h
  cases hpath : path_expr.path with
  | none => simp [hpath] at h
  | some path =>
  rw [hpath] at h
  simp only [Option.bind_eq_bind, Option.some_bind] at h
  cases hres : ctx.resolve_path path with
  | none => simp [hres] at h
  | some res =>
  rw [hres] at h
  simp only [Option.bind_eq_bind, Option.some_bind] at h
  cases res with
  | def_ d =>
    cases d with
    | function f => exact ⟨path_expr, call, path, f, rfl, hcall, hpath, hres⟩
    | module m => simp at h
    | adt i => simp at h
    | variant i => simp at h
    | const c => simp at h
    | static_ i => simp at h
    | trait_ i => simp at h
    | typeAlias t => simp at h
    | builtinType i => simp at h
  | assocItem x => simp at h
  | local_ x => simp at h
  | typeParam x => simp at h
  | selfType x => simp at h
  | macroDef x => simp at h

/-- Helper: the full success path of `inline_function`, with the produced
    assist given explicitly. -/
theorem inline_function_success (ctx : AssistContext)
    (path_expr : ast.PathExpr) (call : ast.CallExpr) (path : ast.Path)
    (f : hir.Function) (m : hir.Module) (body : ast.BlockExpr)
    (argList : ast.ArgList) (params : List ast.Pat)
    (h1 : ctx.find_node_at_offset = some path_expr)
    (h2 : ctx.parentCallExpr path_expr = some call)
    (h3 : path_expr.path = some path)
    (h4 : ctx.resolve_path path =
      some (hir.PathResolution.def_ (hir.ModuleDef.function f)))
    (h5 : ctx.scopeModule call = some m)
    (h6 : ctx.is_visible_from f m = true)
    (h7 : (ctx.source f).body = some body)
    (h8 : call.arg_list = some argList)
    (h9 : function_parameter_patterns (ctx.source f) = some params)
    (h10 : argList.args.length = params.length) :
    inline_function ctx = some
      { id := "inline_function"
        label := "Inline `" ++ path.text ++ "`"
        target := call.range
        replacement :=
          ((make.block_expr
              ((params.zip argList.args).map
                  (fun pv => make.let_stmt pv.1 (some pv.2)) ++ body.statements)
              body.tailExpr).reset_indent).indent call.indentLevel
        edit :=
          { start := call.range.start
            endEx := call.range.endEx
            newText :=
              (((make.block_expr
                  ((params.zip argList.args).map
                      (fun pv => make.let_stmt pv.1 (some pv.2)) ++ body.statements)
                  body.tailExpr).reset_indent).indent call.indentLevel).render.data } } := by
  unfold inline_function
  rw [h1]
  simp only [Option.bind_eq_bind, Option.some_bind]
  rw [h2]
  simp only [Option.bind_eq_bind, Option.some_bind]
  rw [h3]
  simp only [Option.bind_eq_bind, Option.some_bind]
  rw [h4]
  simp only [Option.bind_eq_bind, Option.some_bind]
  rw [h5]
  simp only [Option.bind_eq_bind, Option.some_bind]
  rw [h6]
  simp only [Bool.true_eq_false, if_false]
  rw [h7]
  simp only [Option.bind_eq_bind, Option.some_bind]
  rw [h8]
  simp only [Option.bind_eq_bind, Option.some_bind]
  rw [h9]
  simp only [Option.bind_eq_bind, Option.some_bind]
  rw [if_neg (by simp [h10])]

/-- The statements of the block built on the success path. -/
theorem success_replacement_statements (call : ast.CallExpr)
    (body : ast.BlockExpr) (argList : ast.ArgList) (params : List ast.Pat) :
    (((make.block_expr
        ((params.zip argList.args).map
            (fun pv => make.let_stmt pv.1 (some pv.2)) ++ body.statements)
        body.tailExpr).reset_indent).indent call.indentLevel).statements =
      (params.zip argList.args).map
        (fun pv => ast.Stmt.letStmt pv.1 (some pv.2)) ++ body.statements := by
  simp [make.block_expr, make.let_stmt, ast.BlockExpr.reset_indent,
    ast.BlockExpr.indent]

/-- The trailing expression of the block built on the success path. -/
theorem success_replacement_tail (call : ast.CallExpr)
    (body : ast.BlockExpr) (argList : ast.ArgList) (params : List ast.Pat) :
    (((make.block_expr
        ((params.zip argList.args).map
            (fun pv => make.let_stmt pv.1 (some pv.2)) ++ body.statements)
        body.tailExpr).reset_indent).indent call.indentLevel).tailExpr =
      body.tailExpr := by
  simp [make.block_expr, make.let_stmt, ast.BlockExpr.reset_indent,
    ast.BlockExpr.indent]

/-- C1: with a source-backed body and matching arity, the produced block is
    exactly one let binding per parameter (pattern bound to the positionally
    corresponding argument, in parameter order), then the body's statements
    in order, then the body's trailing expression when present — and nothing
    else. -/
theorem inline_function_block_shape (ctx : AssistContext)
    (path_expr : ast.PathExpr) (call : ast.CallExpr) (path : ast.Path)
    (f : hir.Function) (m : hir.Module) (body : ast.BlockExpr)
    (argList : ast.ArgList) (params : List ast.Pat)
    (h1 : ctx.find_node_at_offset = some path_expr)
    (h2 : ctx.parentCallExpr path_expr = some call)
    (h3 : path_expr.path = some path)
    (h4 : ctx.resolve_path path =
      some (hir.PathResolution.def_ (hir.ModuleDef.function f)))
    (h5 : ctx.scopeModule call = some m)
    (h6 : ctx.is_visible_from f m = true)
    (h7 : (ctx.source f).body = some body)
    (h8 : call.arg_list = some argList)
    (h9 : function_parameter_patterns (ctx.source f) = some params)
    (h10 : argList.args.length = params.length) :
    ∃ a, inline_function ctx = some a ∧
      a.replacement.statements =
        (params.zip argList.args).map
          (fun pv => ast.Stmt.letStmt pv.1 (some pv.2)) ++ body.statements ∧
      a.replacement.statements.take params.length =
        (params.zip argList.args).map
          (fun pv => ast.Stmt.letStmt pv.1 (some pv.2)) ∧
      ((params.zip argList.args).map
          (fun pv => ast.Stmt.letStmt pv.1 (some pv.2))).length = params.length ∧
      a.replacement.tailExpr = body.tailExpr := by
  have hmaplen :
      ((params.zip argList.args).map
        (fun pv => ast.Stmt.letStmt pv.1 (some pv.2))).length = params.length := by
    simp [List.length_zip, h10]
  refine ⟨_, inline_function_success ctx path_expr call path f m body argList
    params h1 h2 h3 h4 h5 h6 h7 h8 h9 h10, ?_, ?_, hmaplen, ?_⟩
  · exact success_replacement_statements call body argList params
  · rw [success_replacement_statements call body argList params]
    rw [List.take_append_eq_append_take, List.take_of_length_le (le_of_eq hmaplen),
      hmaplen, Nat.sub_self, List.take_zero, List.append_nil]
  · exact success_replacement_tail call body argList params

/-- C2: when the argument count differs from the declared parameter count,
    `inline_function` produces nothing — arguments are never truncated or
    padded. -/
theorem inline_function_arity_mismatch (ctx : AssistContext)
    (path_expr : ast.PathExpr) (call : ast.CallExpr) (path : ast.Path)
    (f : hir.Function) (m : hir.Module) (body : ast.BlockExpr)
    (argList : ast.ArgList) (params : List ast.Pat)
    (h1 : ctx.find_node_at_offset = some path_expr)
    (h2 : ctx.parentCallExpr path_expr = some call)
    (h3 : path_expr.path = some path)
    (h4 : ctx.resolve_path path =
      some (hir.PathResolution.def_ (hir.ModuleDef.function f)))
    (h5 : ctx.scopeModule call = some m)
    (h6 : ctx.is_visible_from f m = true)
    (h7 : (ctx.source f).body = some body)
    (h8 : call.arg_list = some argList)
    (h9 : function_parameter_patterns (ctx.source f) = some params)
    (h10 : argList.args.length ≠ params.length) :
    inline_function ctx = none := by
  unfold inline_function
  rw [h1]
  simp only [Option.bind_eq_bind, Option.some_bind]
  rw [h2]
  simp only [Option.bind_eq_bind, Option.some_bind]
  rw [h3]
  simp only [Option.bind_eq_bind, Option.some_bind]
  rw [h4]
  simp only [Option.bind_eq_bind, Option.some_bind]
  rw [h5]
  simp only [Option.bind_eq_bind, Option.some_bind]
  rw [h6]
  simp only [Bool.true_eq_false, if_false]
  rw [h7]
  simp only [Option.bind_eq_bind, Option.some_bind]
  rw [h8]
  simp only [Option.bind_eq_bind, Option.some_bind]
  rw [h9]
  simp only [Option.bind_eq_bind, Option.some_bind]
  rw [if_pos h10]

/-- C3: when the resolved function is not visible from the module of the
    call's enclosing scope, `inline_function` produces nothing, even though
    the path resolved. -/
theorem inline_function_invisible (ctx : AssistContext)
    (path_expr : ast.PathExpr) (call : ast.CallExpr) (path : ast.Path)
    (f : hir.Function) (m : hir.Module)
    (h1 : ctx.find_node_at_offset = some path_expr)
    (h2 : ctx.parentCallExpr path_expr = some call)
    (h3 : path_expr.path = some path)
    (h4 : ctx.resolve_path path =
      some (hir.PathResolution.def_ (hir.ModuleDef.function f)))
    (h5 : ctx.scopeModule call = some m)
    (h6 : ctx.is_visible_from f m = false) :
    inline_function ctx = none := by
  unfold inline_function
  rw [h1]
  simp only [Option.bind_eq_bind, Option.some_bind]
  rw [h2]
  simp only [Option.bind_eq_bind, Option.some_bind]
  rw [h3]
  simp only [Option.bind_eq_bind, Option.some_bind]
  rw [h4]
  simp only [Option.bind_eq_bind, Option.some_bind]
  rw [h5]
  simp only [Option.bind_eq_bind, Option.some_bind]
  rw [h6]
  simp

/-- C4: when the cursor is not on a bare path expression whose immediate
    parent is a call expression resolving to a function-kind definition (in
    particular for method-style calls resolved through a receiver),
    `inline_function` produces no edit, regardless of visibility. -/
theorem inline_function_method_call_none (ctx : AssistContext)
    (h : ∀ path_expr, ctx.find_node_at_offset = some path_expr →
      ∀ call, ctx.parentCallExpr path_expr = some call →
      ∀ path, path_expr.path = some path →
      ∀ f, ctx.resolve_path path ≠
        some (hir.PathResolution.def_ (hir.ModuleDef.function f))) :
    inline_function ctx = none := by
  cases ha : inline_function ctx with
  | none => rfl
  | some a =>
    obtain ⟨pe, c, p, f, k1, k2, k3, k4⟩ :=
      inline_function_some_implies_chain ctx a ha
    exact absurd k4 (h pe k1 c k2 p k3 f)

/-- C6: on success the emitted edit covers exactly the whole call
    expression's range (text strictly before the range and text from the
    range's end onward are preserved by applying the edit), and the
    replacement block is re-indented to the call site's indentation level. -/
theorem inline_function_edit_frame (ctx : AssistContext)
    (path_expr : ast.PathExpr) (call : ast.CallExpr) (path : ast.Path)
    (f : hir.Function) (m : hir.Module) (body : ast.BlockExpr)
    (argList : ast.ArgList) (params : List ast.Pat)
    (h1 : ctx.find_node_at_offset = some path_expr)
    (h2 : ctx.parentCallExpr path_expr = some call)
    (h3 : path_expr.path = some path)
    (h4 : ctx.resolve_path path =
      some (hir.PathResolution.def_ (hir.ModuleDef.function f)))
    (h5 : ctx.scopeModule call = some m)
    (h6 : ctx.is_visible_from f m = true)
    (h7 : (ctx.source f).body = some body)
    (h8 : call.arg_list = some argList)
    (h9 : function_parameter_patterns (ctx.source f) = some params)
    (h10 : argList.args.length = params.length) :
    ∃ a, inline_function ctx = some a ∧
      a.edit.start = call.range.start ∧
      a.edit.endEx = call.range.endEx ∧
      a.target = call.range ∧
      a.replacement.indentLevel = call.indentLevel ∧
      ∀ text : List Char, call.range.start ≤ text.length →
        (applyEdit a.edit text).take call.range.start =
          text.take call.range.start ∧
        (applyEdit a.edit text).drop (call.range.start + a.edit.newText.length) =
          text.drop call.range.endEx := by
  refine ⟨_, inline_function_success ctx path_expr call path f m body argList
    params h1 h2 h3 h4 h5 h6 h7 h8 h9 h10, rfl, rfl, rfl, ?_, ?_⟩
  · simp [make.block_expr, ast.BlockExpr.reset_indent, ast.BlockExpr.indent]
  · intro text htext
    constructor
    · exact applyEdit_take ⟨call.range.start, call.range.endEx, _⟩ text htext
    · exact applyEdit_drop ⟨call.range.start, call.range.endEx, _⟩ text htext

/-- Helper: membership in the candidate set returned by `find_imports` is
    membership in either backend's (converted) results. -/
theorem mem_find_imports (sema : Semantics) (krate : hir.Crate)
    (local_query : symbol_index.Query) (external_query : ImportMap.Query)
    (e : Either hir.ModuleDef hir.MacroDef) :
    e ∈ find_imports sema krate local_query external_query ↔
      e ∈ sema.query_external_importables krate external_query ∨
      e ∈ localCandidates sema (sema.crate_symbols krate local_query) := by
  unfold find_imports
  rw [mem_hsExtend, mem_hashSetOfList]

/-- Helper: the candidate set returned by `find_imports` is duplicate-free. -/
theorem nodup_find_imports (sema : Semantics) (krate : hir.Crate)
    (local_query : symbol_index.Query) (external_query : ImportMap.Query) :
    (find_imports sema krate local_query external_query).Nodup := by
  unfold find_imports
  exact nodup_hsExtend _ _ (nodup_hashSetOfList _)

/-- C5: the candidate set contains no two entries with the same semantic
    identity — it is duplicate-free, it is the identity-based union of the
    two backends' results, and every member occurs exactly once. -/
theorem find_imports_no_duplicates (sema : Semantics) (krate : hir.Crate)
    (local_query : symbol_index.Query) (external_query : ImportMap.Query) :
    (find_imports sema krate local_query external_query).Nodup ∧
    (∀ e, e ∈ find_imports sema krate local_query external_query ↔
      e ∈ sema.query_external_importables krate external_query ∨
      e ∈ localCandidates sema (sema.crate_symbols krate local_query)) ∧
    (∀ e, e ∈ find_imports sema krate local_query external_query →
      (find_imports sema krate local_query external_query).count e = 1) ∧
    (∀ name_to_import, (find_exact_imports sema krate name_to_import).Nodup) ∧
    (∀ limit fuzzy_search_string ignore_assoc_items name_only,
      (find_similar_imports sema krate limit fuzzy_search_string
        ignore_assoc_items name_only).Nodup) := by
  refine ⟨nodup_find_imports sema krate local_query external_query,
    mem_find_imports sema krate local_query external_query, ?_, ?_, ?_⟩
  · intro e he
    exact List.count_eq_one_of_mem
      (nodup_find_imports sema krate local_query external_query) he
  · intro name_to_import
    exact nodup_find_imports sema krate _ _
  · intro limit fuzzy_search_string ignore_assoc_items name_only
    unfold find_similar_imports
    exact List.Nodup.filter _ (nodup_find_imports sema krate _ _)

/-- C7: `find_exact_imports` builds two mirror queries over the same name —
    the local one exact-match (hence case-sensitive) with limit 40, the
    dependency one equals-mode, name-only, case-sensitive, limit 40 — runs
    both, and returns the union of their results. -/
theorem find_exact_imports_mirrored_queries (sema : Semantics)
    (krate : hir.Crate) (name_to_import : String) :
    (find_exact_local_query name_to_import).query = name_to_import ∧
    (find_exact_local_query name_to_import).isExact = true ∧
    (find_exact_local_query name_to_import).limitN = some 40 ∧
    (∀ s, (find_exact_local_query name_to_import).exactMatches s = true ↔
      s = name_to_import) ∧
    (find_exact_external_query name_to_import).query = name_to_import ∧
    (find_exact_external_query name_to_import).searchMode =
      ImportMap.SearchMode.Equals ∧
    (find_exact_external_query name_to_import).nameOnly = true ∧
    (find_exact_external_query name_to_import).caseSensitive = true ∧
    (find_exact_external_query name_to_import).limitN = some 40 ∧
    find_exact_imports sema krate name_to_import =
      find_imports sema krate (find_exact_local_query name_to_import)
        (find_exact_external_query name_to_import) ∧
    (∀ e, e ∈ find_exact_imports sema krate name_to_import ↔
      e ∈ sema.query_external_importables krate
          (find_exact_external_query name_to_import) ∨
      e ∈ localCandidates sema
          (sema.crate_symbols krate (find_exact_local_query name_to_import))) := by
  refine ⟨rfl, rfl, rfl, ?_, rfl, rfl, rfl, rfl, rfl, rfl, ?_⟩
  · intro s
    simp [find_exact_local_query, symbol_index.Query.exactMatches,
      symbol_index.Query.new, symbol_index.Query.exact, symbol_index.Query.limit,
      eq_comm]
  · intro e
    exact mem_find_imports sema krate (find_exact_local_query name_to_import)
      (find_exact_external_query name_to_import) e

/-- C10: the (otherwise unnamed) per-backend result bound of
    `find_exact_imports` is the constant 40, on both queries. -/
theorem find_exact_imports_limit_forty (sema : Semantics) (krate : hir.Crate)
    (name_to_import : String) :
    (find_exact_local_query name_to_import).limitN = some 40 ∧
    (find_exact_external_query name_to_import).limitN = some 40 ∧
    find_exact_imports sema krate name_to_import =
      find_imports sema krate (find_exact_local_query name_to_import)
        (find_exact_external_query name_to_import) :=
  ⟨rfl, rfl, rfl⟩

/-- Helper: the associated-item filter keeps a candidate exactly when it is
    not an associated function, constant or type alias. -/
theorem assocItemFilter_eq_true_iff (sema : Semantics)
    (e : Either hir.ModuleDef hir.MacroDef) :
    assocItemFilter sema e = true ↔
      (∀ g, e = Either.left (hir.ModuleDef.function g) →
        sema.as_assoc_item_fn g = none) ∧
      (∀ c, e = Either.left (hir.ModuleDef.const c) →
        sema.as_assoc_item_const c = none) ∧
      (∀ t, e = Either.left (hir.ModuleDef.typeAlias t) →
        sema.as_assoc_item_type_alias t = none) := by
  cases e with
  | left d =>
    cases d <;>
      simp [assocItemFilter, Option.isNone_iff_eq_none]
  | right mac =>
    simp [assocItemFilter]

/-- C8: with `ignore_assoc_items` unset no candidate is removed; with it set,
    exactly the candidates of kind function, constant or type alias that the
    semantic model reports as associated items are removed — every other
    candidate (macros in particular) is retained. -/
theorem find_similar_imports_assoc_filter (sema : Semantics)
    (krate : hir.Crate) (limit : Option Nat) (fuzzy_search_string : String)
    (name_only : Bool) :
    find_similar_imports sema krate limit fuzzy_search_string false name_only =
      find_imports sema krate
        (find_similar_local_query limit fuzzy_search_string)
        (find_similar_external_query limit fuzzy_search_string name_only) ∧
    (∀ e, e ∈ find_similar_imports sema krate limit fuzzy_search_string true
        name_only ↔
      e ∈ find_similar_imports sema krate limit fuzzy_search_string false
        name_only ∧
      (∀ g, e = Either.left (hir.ModuleDef.function g) →
        sema.as_assoc_item_fn g = none) ∧
      (∀ c, e = Either.left (hir.ModuleDef.const c) →
        sema.as_assoc_item_const c = none) ∧
      (∀ t, e = Either.left (hir.ModuleDef.typeAlias t) →
        sema.as_assoc_item_type_alias t = none)) ∧
    (∀ mac, Either.right mac ∈
        find_similar_imports sema krate limit fuzzy_search_string true
          name_only ↔
      Either.right mac ∈
        find_similar_imports sema krate limit fuzzy_search_string false
          name_only) := by
  have hfalse :
      find_similar_imports sema krate limit fuzzy_search_string false name_only =
        find_imports sema krate
          (find_similar_local_query limit fuzzy_search_string)
          (find_similar_external_query limit fuzzy_search_string name_only) := by
    unfold find_similar_imports
    simp
  have htrue : ∀ e,
      e ∈ find_similar_imports sema krate limit fuzzy_search_string true
        name_only ↔
      e ∈ find_imports sema krate
          (find_similar_local_query limit fuzzy_search_string)
          (find_similar_external_query limit fuzzy_search_string name_only) ∧
      assocItemFilter sema e = true := by
    intro e
    unfold find_similar_imports
    simp [List.mem_filter]
  refine ⟨hfalse, ?_, ?_⟩
  · intro e
    rw [htrue e, hfalse, assocItemFilter_eq_true_iff]
  · intro mac
    rw [htrue (Either.right mac), hfalse]
    simp [assocItemFilter]

/-- C9: a local-index hit is converted by re-resolving its syntax location
    (`get_name_definition`, then the module-def/macro narrowing); a hit for
    which this fails contributes nothing — the result over any hit list
    containing it equals the result with it removed, and `find_imports`
    never surfaces an error for it. -/
theorem local_resolution_failure_dropped (sema : Semantics) (s : FileSymbol)
    (l1 l2 : List FileSymbol)
    (h : (get_name_definition sema s).bind definitionToCandidate = none) :
    localCandidates sema (l1 ++ s :: l2) = localCandidates sema (l1 ++ l2) ∧
    (∀ krate local_query external_query,
      sema.crate_symbols krate local_query = l1 ++ s :: l2 →
      find_imports sema krate local_query external_query =
        hsExtend
          (hashSetOfList (sema.query_external_importables krate external_query))
          (localCandidates sema (l1 ++ l2))) := by
  have hcomp : ∀ l : List FileSymbol, localCandidates sema l =
      l.filterMap (fun x => (get_name_definition sema x).bind definitionToCandidate) := by
    intro l
    unfold localCandidates
    rw [List.filterMap_filterMap]
  have hdrop : localCandidates sema (l1 ++ s :: l2) = localCandidates sema (l1 ++ l2) := by
    rw [hcomp, hcomp, List.filterMap_append, List.filterMap_append,
      List.filterMap_cons, h]
  refine ⟨hdrop, ?_⟩
  intro krate local_query external_query hsym
  have hfi : find_imports sema krate local_query external_query =
      hsExtend
        (hashSetOfList (sema.query_external_importables krate external_query))
        (localCandidates sema (sema.crate_symbols krate local_query)) := rfl
  rw [hfi, hsym, hdrop]

/-- Witness for C1 at the concrete call `foo(1, 2)` of `ctxW`. -/
theorem inline_function_block_shape_witness :
    ∃ a, inline_function ctxW = some a ∧
      a.replacement.statements =
        [ast.Stmt.letStmt { text := "a" } (some { text := "1" }),
         ast.Stmt.letStmt { text := "b" } (some { text := "2" }),
         ast.Stmt.letStmt { text := "x" } (some { text := "a + b" })] ∧
      a.replacement.tailExpr = some { text := "x" } := by
  obtain ⟨a, ha, hs, -, -, ht⟩ :=
    inline_function_block_shape ctxW pathExprW callW { text := "foo" }
      { id := 7 } { id := 3 } bodyW
      { args := [{ text := "1" }, { text := "2" }] }
      [{ text := "a" }, { text := "b" }]
      rfl rfl rfl rfl rfl rfl rfl rfl rfl rfl
  refine ⟨a, ha, ?_, ?_⟩
  · rw [hs]; rfl
  · rw [ht]; rfl

/-- Witness for C2: `foo(1)` against two declared parameters yields nothing. -/
theorem inline_function_arity_mismatch_witness :
    (1 : Nat) ≠ 2 ∧ inline_function ctxW1 = none :=
  ⟨by decide,
    inline_function_arity_mismatch ctxW1 pathExprW callW1 { text := "foo" }
      { id := 7 } { id := 3 } bodyW { args := [{ text := "1" }] }
      [{ text := "a" }, { text := "b" }]
      rfl rfl rfl rfl rfl rfl rfl rfl rfl (by decide)⟩

/-- Witness for C3: an invisible target function yields nothing. -/
theorem inline_function_invisible_witness :
    ctxW3.is_visible_from { id := 7 } { id := 3 } = false ∧
    inline_function ctxW3 = none :=
  ⟨rfl,
    inline_function_invisible ctxW3 pathExprW callW { text := "foo" }
      { id := 7 } { id := 3 } rfl rfl rfl rfl rfl rfl⟩

/-- Witness for C4: a call resolving to an associated item (method form)
    yields nothing. -/
theorem inline_function_method_call_none_witness :
    ctxW4.resolve_path { text := "foo" } =
      some (hir.PathResolution.assocItem { id := 9 }) ∧
    inline_function ctxW4 = none := by
  refine ⟨rfl, inline_function_method_call_none ctxW4 ?_⟩
  intro pe h1 c h2 p h3 g hcon
  simp [ctxW4] at hcon

/-- Witness for C6 at `ctxW`, applied to the concrete 40-character text. -/
theorem inline_function_edit_frame_witness :
    ∃ a, inline_function ctxW = some a ∧
      a.edit.start = 21 ∧ a.edit.endEx = 30 ∧
      a.replacement.indentLevel = 2 ∧
      (applyEdit a.edit textW).take 21 = textW.take 21 ∧
      (applyEdit a.edit textW).drop (21 + a.edit.newText.length) =
        textW.drop 30 := by
  obtain ⟨a, ha, hst, hend, -, hind, hframe⟩ :=
    inline_function_edit_frame ctxW pathExprW callW { text := "foo" }
      { id := 7 } { id := 3 } bodyW
      { args := [{ text := "1" }, { text := "2" }] }
      [{ text := "a" }, { text := "b" }]
      rfl rfl rfl rfl rfl rfl rfl rfl rfl rfl
  obtain ⟨htake, hdrop⟩ := hframe textW (by decide)
  exact ⟨a, ha, hst, hend, hind, htake, hdrop⟩

/-- Witness for C9: the hit `symW` fails re-resolution under `semaW` and is
    dropped from the local contribution. -/
theorem local_resolution_failure_dropped_witness :
    (get_name_definition semaW symW).bind definitionToCandidate = none ∧
    localCandidates semaW ([] ++ symW :: []) = localCandidates semaW ([] ++ []) :=
  ⟨rfl, (local_resolution_failure_dropped semaW symW [] [] rfl).1⟩

end RA
